import Mathlib

/-!
Verification of the dropwise-api due-drop worker.

Shallow embedding of the scheduling/delivery subsystem:
  * the drops table rows (sql/migrations/001_create_initial_schema.sql),
  * the SQL queries GetDueDropsByUserUUID, MarkDropAsSent,
    ListUserUUIDsWithDueDrops (sql/query/drops.sql),
  * the worker tick ProcessDropsLogic (internal/worker, multi-user version).

Timestamps and UUIDs are modelled as naturals; a SQL NULL column is an
Option.  A table is a list of rows in physical row order; queries without
an ORDER BY (or whose ORDER BY leaves ties) depend on that row order the
way the database may.
-/

namespace Dropwise

/-- Status values allowed by the CHECK constraint of the drops table:
new, sent, archived, snoozed.  The status new means due / pending. -/
inductive Status where
  | new
  | sent
  | archived
  | snoozed
deriving DecidableEq, Repr

/-- One row of the drops table.  Columns not touched by the worker or the
claims (user_notes, updated_at) are omitted; the rest keep their SQL
names.  user_uuid and last_sent_date are nullable. -/
structure Drop where
  id : Nat
  user_uuid : Option Nat
  topic : String
  url : String
  added_date : Nat
  status : Status
  last_sent_date : Option Nat
  send_count : Nat
  priority : Int
deriving DecidableEq, Repr

/-- Effect of MarkDropAsSent on the matched row: status := sent,
last_sent_date := $2, send_count := send_count + 1 (drops.sql). -/
def markSentRow (t : Nat) (d : Drop) : Drop :=
  { d with status := Status.sent, last_sent_date := some t,
           send_count := d.send_count + 1 }

/-- MarkDropAsSent (drops.sql): UPDATE drops SET status, last_sent_date,
send_count WHERE id = $1 RETURNING *.  The WHERE clause matches on id
only; there is no condition on the current status.  Returns the updated
table and the RETURNING row (none when no row has the id, which sqlc
surfaces as sql.ErrNoRows). -/
def markDropAsSent (tbl : List Drop) (dropId : Nat) (t : Nat) :
    List Drop × Option Drop :=
  (tbl.map (fun d => if d.id = dropId then markSentRow t d else d),
   (tbl.find? (fun d => d.id == dropId)).map (markSentRow t))

/-- The sort key of GetDueDropsByUserUUID: ORDER BY priority DESC,
added_date ASC.  dueLt a b means a is strictly earlier than b in that
order.  Ties on both keys are NOT broken by this order. -/
def dueLt (a b : Drop) : Bool :=
  b.priority < a.priority ||
    (a.priority == b.priority && a.added_date < b.added_date)

/-- Insert a row into an already sorted list, after every row it does not
strictly precede (so rows tied on the whole key keep their relative
physical order, as a database scan may). -/
def insertDue (d : Drop) : List Drop → List Drop
  | [] => [d]
  | x :: xs => if dueLt d x then d :: x :: xs else x :: insertDue d xs

/-- Stable sort by dueLt, scanning the table in physical row order. -/
def sortDue (l : List Drop) : List Drop :=
  l.foldl (fun acc d => insertDue d acc) []

/-- Row predicate of GetDueDropsByUserUUID: user_uuid = $1 AND
status = new.  A NULL user_uuid never equals the (non-null) parameter. -/
def isDueFor (u : Nat) (d : Drop) : Bool :=
  d.user_uuid == some u && d.status == Status.new

/-- GetDueDropsByUserUUID (drops.sql): due rows of one user, ORDER BY
priority DESC, added_date ASC, LIMIT $2. -/
def getDueDropsByUserUUID (tbl : List Drop) (u : Nat) (limit : Nat) :
    List Drop :=
  (sortDue (tbl.filter (isDueFor u))).take limit

/-- Deduplication in first-appearance order, skipping values already
seen: the DISTINCT of ListUserUUIDsWithDueDrops, which has no ORDER BY,
so the output order follows the row enumeration order. -/
def dedupFirst (seen : List (Option Nat)) :
    List (Option Nat) → List (Option Nat)
  | [] => []
  | x :: xs =>
      if x ∈ seen then dedupFirst seen xs
      else x :: dedupFirst (x :: seen) xs

/-- ListUserUUIDsWithDueDrops (drops.sql): SELECT DISTINCT user_uuid
FROM drops WHERE status = new AND user_uuid IS NOT NULL.  The Go side
receives the values as nullable UUIDs, hence the Option result type. -/
def listUserUUIDsWithDueDrops (tbl : List Drop) : List (Option Nat) :=
  dedupFirst []
    ((tbl.filter
        (fun d => d.status == Status.new && d.user_uuid.isSome)).map
      Drop.user_uuid)

/-- Errors the worker can meet: the tenant listing failing (fatal for the
tick), a per-tenant fetch failing, a per-drop mark update failing. -/
inductive Err where
  | listErr
  | fetchErr (tenant : Nat)
  | markErr (dropId : Nat)
deriving DecidableEq, Repr

/-- Fault injection for the database calls of one tick: whether
ListUserUUIDsWithDueDrops errors, which tenants GetDueDropsByUserUUID
errors for, which drop ids MarkDropAsSent errors for. -/
structure Faults where
  listFails : Bool
  fetchFails : Nat → Bool
  markFails : Nat → Bool

/-- The fault-free database. -/
def noFaults : Faults :=
  { listFails := false, fetchFails := fun _ => false,
    markFails := fun _ => false }

/-- State threaded through the per-user loop of ProcessDropsLogic: the
evolving table, totalProcessedCount, the overallSuccess flag (only ever
logged by the Go code), and instrumentation logs of the calls made:
tenants fetched, drop ids sent, drop ids passed to MarkDropAsSent, and
(tenant, drop id) pairs successfully transitioned. -/
structure TickState where
  table : List Drop
  count : Nat
  success : Bool
  fetchAttempts : List Nat
  sendAttempts : List Nat
  markAttempts : List Nat
  transitioned : List (Nat × Nat)
deriving DecidableEq, Repr

/-- Initial loop state over a table. -/
def initState (tbl : List Drop) : TickState :=
  { table := tbl, count := 0, success := true, fetchAttempts := [],
    sendAttempts := [], markAttempts := [], transitioned := [] }

/-- The simulated send of worker part_009 (a log line, a Sleep, a log
line): it has no failure path, so it reports no error. -/
def simulateSend (_ : Drop) : Option Err := none

/-- One iteration of the per-user loop of ProcessDropsLogic:
skip an invalid (null) UUID; fetch one due drop (fetch error: clear the
success flag and continue; empty result: continue); run the simulated
send; call MarkDropAsSent (error: clear the success flag and continue);
on success count the drop. -/
def processUser (f : Faults) (tNow : Nat) (st : TickState)
    (uuid : Option Nat) : TickState :=
  match uuid with
  | none => st
  | some u =>
    let st1 := { st with fetchAttempts := st.fetchAttempts ++ [u] }
    if f.fetchFails u then { st1 with success := false }
    else
      match getDueDropsByUserUUID st1.table u 1 with
      | [] => st1
      | dueDrop :: _ =>
        let st2 :=
          { st1 with sendAttempts := st1.sendAttempts ++ [dueDrop.id],
                     markAttempts := st1.markAttempts ++ [dueDrop.id] }
        if f.markFails dueDrop.id then { st2 with success := false }
        else
          match markDropAsSent st2.table dueDrop.id tNow with
          | (tbl2, some _) =>
              { st2 with table := tbl2, count := st2.count + 1,
                         transitioned :=
                           st2.transitioned ++ [(u, dueDrop.id)] }
          | (_, none) => { st2 with success := false }

/-- ProcessDropsLogic (worker part_009): list the users with due drops
(an error there aborts the tick, returning count 0 and the error), then
run the per-user loop; afterwards return totalProcessedCount and a nil
error — the per-user failures only lowered the logged success flag.
The result carries the final state, the returned count, and the returned
error. -/
def processDropsLogic (f : Faults) (tbl : List Drop) (tNow : Nat) :
    TickState × Nat × Option Err :=
  if f.listFails then (initState tbl, 0, some Err.listErr)
  else
    let uuids := listUserUUIDsWithDueDrops tbl
    let final := uuids.foldl (processUser f tNow) (initState tbl)
    (final, final.count, none)

/-- The selection order as the specification states it: priority
descending, created_at ascending, then id ascending as the final
tiebreak.  Written from the spec for comparison with dueLt, which is the
order the SQL actually applies. -/
def specDueLt (a b : Drop) : Bool :=
  b.priority < a.priority ||
    (a.priority == b.priority &&
      (a.added_date < b.added_date ||
        (a.added_date == b.added_date && a.id < b.id)))

/-- Pending drop of tenant 1, priority 3. -/
def drop1 : Drop :=
  { id := 10, user_uuid := some 1, topic := "a", url := "ua",
    added_date := 5, status := Status.new, last_sent_date := none,
    send_count := 0, priority := 3 }

/-- Pending drop of tenant 1, priority 5. -/
def drop2 : Drop :=
  { id := 20, user_uuid := some 1, topic := "b", url := "ub",
    added_date := 5, status := Status.new, last_sent_date := none,
    send_count := 0, priority := 5 }

/-- Pending drop of tenant 2. -/
def drop3 : Drop :=
  { id := 30, user_uuid := some 2, topic := "c", url := "uc",
    added_date := 9, status := Status.new, last_sent_date := none,
    send_count := 0, priority := 0 }

/-- A drop already sent: status is not new, send_count 5,
last_sent_date 10. -/
def dropSent : Drop :=
  { id := 40, user_uuid := some 1, topic := "d", url := "ud",
    added_date := 2, status := Status.sent, last_sent_date := some 10,
    send_count := 5, priority := 1 }

/-- Pending drop of tenant 7, id 1, tied with dTieB on priority and
added_date. -/
def dTieA : Drop :=
  { id := 1, user_uuid := some 7, topic := "t1", url := "u1",
    added_date := 7, status := Status.new, last_sent_date := none,
    send_count := 0, priority := 5 }

/-- Pending drop of tenant 7, id 2, tied with dTieA on priority and
added_date. -/
def dTieB : Drop :=
  { id := 2, user_uuid := some 7, topic := "t2", url := "u2",
    added_date := 7, status := Status.new, last_sent_date := none,
    send_count := 0, priority := 5 }

/-- Faults where the fetch for tenant 1 errors and everything else
works. -/
def faultsFetch1 : Faults :=
  { listFails := false, fetchFails := fun u => u == 1,
    markFails := fun _ => false }

/-- Faults where the tenant listing itself errors. -/
def faultsList : Faults :=
  { listFails := true, fetchFails := fun _ => false,
    markFails := fun _ => false }

/-- C1.  The claim says MarkDropAsSent succeeds only when the row is
still pending and otherwise leaves status, send_count and last_sent_date
unchanged.  On a row whose status is already sent, the update
nevertheless applies: the call returns a row and send_count moves from
5 to 6 — the WHERE clause of MarkDropAsSent checks only the id, never
the status. -/
theorem C1_counterexample :
    dropSent.status ≠ Status.new ∧
    (markDropAsSent [dropSent] 40 20).2.isSome = true ∧
    (markDropAsSent [dropSent] 40 20).1 ≠ [dropSent] ∧
    (markDropAsSent [dropSent] 40 20).2.map Drop.send_count = some 6 ∧
    (markDropAsSent [dropSent] 40 20).2.map Drop.last_sent_date =
      some (some 20) := by
  decide

/-- C1 (amended).  MarkDropAsSent is unconditional on status: for every
table and every row carrying the requested id — whatever its current
status — the update applies, setting status to sent, last_sent_date to
the supplied timestamp and send_count to its old value plus one, and the
updated row is returned; no conflict outcome exists. -/
theorem C1_mark_unconditional (tbl : List Drop) (dropId t : Nat)
    (d : Drop) (h : tbl.find? (fun r => r.id == dropId) = some d) :
    (markDropAsSent tbl dropId t).2 = some (markSentRow t d) ∧
    (markSentRow t d).status = Status.sent ∧
    (markSentRow t d).send_count = d.send_count + 1 ∧
    (markSentRow t d).last_sent_date = some t := by
  refine ⟨?_, rfl, rfl, rfl⟩
  simp [markDropAsSent, h]

/-- C1 witness: the amended theorem applied to the already-sent row. -/
theorem C1_mark_unconditional_witness :
    [dropSent].find? (fun r => r.id == 40) = some dropSent ∧
    ((markDropAsSent [dropSent] 40 20).2 = some (markSentRow 20 dropSent) ∧
     (markSentRow 20 dropSent).status = Status.sent ∧
     (markSentRow 20 dropSent).send_count = dropSent.send_count + 1 ∧
     (markSentRow 20 dropSent).last_sent_date = some 20) :=
  ⟨by decide, C1_mark_unconditional [dropSent] 40 20 dropSent (by decide)⟩

/-- C3.  When the tenant listing fails, the tick aborts at once: it
returns count 0 together with the fatal error, and the table — every
status, send_count and last_sent_date of every item — is untouched. -/
theorem C3_fatal_list_error (f : Faults) (tbl : List Drop) (t : Nat)
    (h : f.listFails = true) :
    processDropsLogic f tbl t = (initState tbl, 0, some Err.listErr) ∧
    (processDropsLogic f tbl t).1.table = tbl := by
  constructor
  · simp [processDropsLogic, h]
  · simp [processDropsLogic, h, initState]

/-- C3 witness: the fatal-listing theorem on a concrete table. -/
theorem C3_fatal_list_error_witness :
    faultsList.listFails = true ∧
    (processDropsLogic faultsList [drop1, drop3] 9 =
       (initState [drop1, drop3], 0, some Err.listErr) ∧
     (processDropsLogic faultsList [drop1, drop3] 9).1.table =
       [drop1, drop3]) :=
  ⟨rfl, C3_fatal_list_error faultsList [drop1, drop3] 9 rfl⟩

/-- C2.  The claim says per-tenant errors are returned by the tick in a
per_tenant_errors component.  Run a tick over tenants 1 and 2 where the
fetch for tenant 1 errors: the fetch was attempted and failed (the
internal success flag drops to false), tenant 2 is still processed
(count 1), yet the tick returns error none — nothing carries the error of tenant 1 back to the caller, because ProcessDropsLogic only logs per-user
failures and always returns a nil error after the loop. -/
theorem C2_counterexample :
    faultsFetch1.fetchFails 1 = true ∧
    1 ∈ (processDropsLogic faultsFetch1 [drop2, drop3] 10).1.fetchAttempts ∧
    (processDropsLogic faultsFetch1 [drop2, drop3] 10).1.success = false ∧
    (processDropsLogic faultsFetch1 [drop2, drop3] 10).2.1 = 1 ∧
    (processDropsLogic faultsFetch1 [drop2, drop3] 10).2.2 = none := by
  decide

/-- C2 (amended).  A non-fatal per-tenant error makes the tick skip that
tenant: the tenant is excluded from the processed count and the
remaining tenants are still processed; but the error is not returned —
it is only folded into an internal success flag that is logged, and
whenever the tenant listing succeeds the tick returns a nil error, with
no per-tenant error component.  First conjunct: the returned error is
always none once listing succeeds.  Second conjunct: in the concrete
two-tenant run where the fetch fails for tenant 1, only the drop of
tenant 2 is transitioned, the count is 1, the pending drop of tenant 1
is untouched, and
the internal flag records the failure. -/
theorem C2_errors_only_logged :
    (∀ (f : Faults) (tbl : List Drop) (t : Nat), f.listFails = false →
       (processDropsLogic f tbl t).2.2 = none) ∧
    ((processDropsLogic faultsFetch1 [drop2, drop3] 10).2.1 = 1 ∧
     (processDropsLogic faultsFetch1 [drop2, drop3] 10).1.transitioned =
       [(2, 30)] ∧
     drop2 ∈ (processDropsLogic faultsFetch1 [drop2, drop3] 10).1.table ∧
     (processDropsLogic faultsFetch1 [drop2, drop3] 10).1.success =
       false) := by
  constructor
  · intro f tbl t h
    simp [processDropsLogic, h]
  · decide

/-- C2 witness: the first conjunct applied to a concrete fault-free
run. -/
theorem C2_errors_only_logged_witness :
    noFaults.listFails = false ∧
    (processDropsLogic noFaults [drop1] 5).2.2 = none :=
  ⟨rfl, C2_errors_only_logged.1 noFaults [drop1] 5 rfl⟩

theorem dedupFirst_mem (l : List (Option Nat)) :
    ∀ (seen : List (Option Nat)) (x : Option Nat),
      x ∈ dedupFirst seen l ↔ x ∈ l ∧ x ∉ seen := by
  induction l with
  | nil => intro seen x; simp [dedupFirst]
  | cons a l ih =>
    intro seen x
    by_cases h : a ∈ seen
    · simp only [dedupFirst, if_pos h, ih, List.mem_cons]
      constructor
      · rintro ⟨hl, hs⟩; exact ⟨Or.inr hl, hs⟩
      · rintro ⟨ha | hl, hs⟩
        · subst ha; exact absurd h hs
        · exact ⟨hl, hs⟩
    · simp only [dedupFirst, if_neg h, List.mem_cons, ih]
      constructor
      · rintro (rfl | ⟨hl, hs⟩)
        · exact ⟨Or.inl rfl, h⟩
        · exact ⟨Or.inr hl, fun hx => hs (Or.inr hx)⟩
      · rintro ⟨rfl | hl, hs⟩
        · exact Or.inl rfl
        · by_cases hxa : x = a
          · exact Or.inl hxa
          · refine Or.inr ⟨hl, ?_⟩
            intro hx
            rcases hx with h1 | h2
            · exact hxa h1
            · exact hs h2

theorem dedupFirst_nodup (l : List (Option Nat)) :
    ∀ seen : List (Option Nat), (dedupFirst seen l).Nodup := by
  induction l with
  | nil => intro seen; simp [dedupFirst]
  | cons a l ih =>
    intro seen
    by_cases h : a ∈ seen
    · simpa [dedupFirst, if_pos h] using ih seen
    · simp only [dedupFirst, if_neg h, List.nodup_cons]
      refine ⟨fun hmem => ?_, ih (a :: seen)⟩
      exact ((dedupFirst_mem l (a :: seen) a).mp hmem).2 (List.mem_cons_self a seen)

theorem mem_listUserUUIDs_isSome (tbl : List Drop) (x : Option Nat)
    (hx : x ∈ listUserUUIDsWithDueDrops tbl) : x.isSome = true := by
  have := (dedupFirst_mem _ [] x).mp hx
  rcases this with ⟨hmem, -⟩
  rcases List.mem_map.mp hmem with ⟨d, hd, rfl⟩
  exact (Bool.and_eq_true _ _ |>.mp (List.mem_filter.mp hd).2).2

/-- C7.  The claim says two calls of ListUserUUIDsWithDueDrops with no
intervening mutation return an identical ordered sequence.  The query
has no ORDER BY, so its output order follows the row
enumeration order of the database, which is not part of the logical table content: on
two tables holding exactly the same rows (a permutation — no logical
mutation separates them), the query yields the same tenants in
different orders. -/
theorem C7_counterexample :
    List.Perm [drop1, drop3] [drop3, drop1] ∧
    listUserUUIDsWithDueDrops [drop1, drop3] ≠
      listUserUUIDsWithDueDrops [drop3, drop1] := by
  constructor
  · exact List.Perm.swap drop3 drop1 []
  · decide

/-- C7 (amended).  ListUserUUIDsWithDueDrops does return the distinct
set of tenants owning at least one pending item — the output is
duplicate-free, a tenant appears exactly when it owns a row with status
new, and no null identifier appears — but in row-enumeration order: the
query has no ORDER BY, so no fixed order across physical reorderings is
guaranteed (only repeated evaluation on the same physical table is
reproducible). -/
theorem C7_distinct_set (tbl : List Drop) :
    (listUserUUIDsWithDueDrops tbl).Nodup ∧
    (∀ u : Nat, some u ∈ listUserUUIDsWithDueDrops tbl ↔
       ∃ d, d ∈ tbl ∧ d.user_uuid = some u ∧ d.status = Status.new) ∧
    (∀ x ∈ listUserUUIDsWithDueDrops tbl, x.isSome = true) := by
  refine ⟨dedupFirst_nodup _ [], fun u => ?_, mem_listUserUUIDs_isSome tbl⟩
  · simp only [listUserUUIDsWithDueDrops, dedupFirst_mem, List.mem_map,
      List.mem_filter, Bool.and_eq_true, beq_iff_eq, List.not_mem_nil,
      not_false_iff, and_true]
    constructor
    · rintro ⟨d, ⟨hd, hs, _⟩, hu⟩
      exact ⟨d, hd, hu, hs⟩
    · rintro ⟨d, hd, hu, hs⟩
      exact ⟨d, ⟨hd, hs, by simp [hu]⟩, hu⟩

/-- C7 witness: the amended theorem instantiated on a concrete table
and a concrete member. -/
theorem C7_distinct_set_witness :
    (listUserUUIDsWithDueDrops [drop1, drop3]).Nodup ∧
    some 1 ∈ listUserUUIDsWithDueDrops [drop1, drop3] ∧
    (some 1 : Option Nat).isSome = true :=
  ⟨(C7_distinct_set [drop1, drop3]).1, by decide,
   (C7_distinct_set [drop1, drop3]).2.2 (some 1) (by decide)⟩

theorem processUser_fetchAttempts (f : Faults) (t : Nat) (st : TickState)
    (uuid : Option Nat) :
    (processUser f t st uuid).fetchAttempts =
      st.fetchAttempts ++ uuid.toList := by
  cases uuid with
  | none => simp [processUser, Option.toList]
  | some u =>
    simp only [processUser, Option.toList]
    split
    · rfl
    · split
      · rfl
      · split
        · rfl
        · split
          · rfl
          · rfl

theorem processUser_send_eq_mark (f : Faults) (t : Nat) (st : TickState)
    (uuid : Option Nat) (h : st.sendAttempts = st.markAttempts) :
    (processUser f t st uuid).sendAttempts =
      (processUser f t st uuid).markAttempts := by
  cases uuid with
  | none => exact h
  | some u =>
    simp only [processUser]
    split
    · exact h
    · split
      · exact h
      · split
        · simp [h]
        · split
          · simp [h]
          · simp [h]

theorem processUser_step (f : Faults) (t : Nat) (st : TickState)
    (uuid : Option Nat) :
    ((processUser f t st uuid).table = st.table ∧
     (processUser f t st uuid).transitioned = st.transitioned) ∨
    (∃ u i, uuid = some u ∧
       (processUser f t st uuid).transitioned =
         st.transitioned ++ [(u, i)] ∧
       (processUser f t st uuid).table =
         (markDropAsSent st.table i t).1) := by
  cases uuid with
  | none => exact Or.inl ⟨rfl, rfl⟩
  | some u =>
    simp only [processUser]
    split
    · exact Or.inl ⟨rfl, rfl⟩
    · split
      · exact Or.inl ⟨rfl, rfl⟩
      · rename_i dueDrop rest heq
        split
        · exact Or.inl ⟨rfl, rfl⟩
        · split
          · rename_i tbl2 upd heq2
            refine Or.inr ⟨u, dueDrop.id, rfl, rfl, ?_⟩
            have : (markDropAsSent st.table dueDrop.id t).1 = tbl2 :=
              congrArg Prod.fst heq2
            simpa using this.symm
          · exact Or.inl ⟨rfl, rfl⟩

theorem markDropAsSent_mem_ne (tbl : List Drop) (i t : Nat) (d : Drop)
    (hd : d ∈ tbl) (hne : d.id ≠ i) :
    d ∈ (markDropAsSent tbl i t).1 := by
  simp only [markDropAsSent]
  exact List.mem_map.mpr ⟨d, hd, by simp [hne]⟩

theorem foldl_fetchAttempts (f : Faults) (t : Nat) :
    ∀ (l : List (Option Nat)) (st : TickState),
      (l.foldl (processUser f t) st).fetchAttempts =
        st.fetchAttempts ++ l.filterMap id := by
  intro l
  induction l with
  | nil => intro st; simp
  | cons x l ih =>
    intro st
    have hx := processUser_fetchAttempts f t st x
    cases x with
    | none =>
      simp only [List.foldl_cons, List.filterMap_cons]
      rw [ih]
      simp only [hx, Option.toList]
      simp
    | some u =>
      simp only [List.foldl_cons, List.filterMap_cons]
      rw [ih]
      simp only [hx, Option.toList]
      simp [List.append_assoc]

theorem foldl_send_eq_mark (f : Faults) (t : Nat) :
    ∀ (l : List (Option Nat)) (st : TickState),
      st.sendAttempts = st.markAttempts →
      (l.foldl (processUser f t) st).sendAttempts =
        (l.foldl (processUser f t) st).markAttempts := by
  intro l
  induction l with
  | nil => intro st h; exact h
  | cons x l ih =>
    intro st h
    exact ih (processUser f t st x) (processUser_send_eq_mark f t st x h)

theorem foldl_transitioned_ext (f : Faults) (t : Nat) :
    ∀ (l : List (Option Nat)) (st : TickState),
      ∃ tail, (l.foldl (processUser f t) st).transitioned =
        st.transitioned ++ tail := by
  intro l
  induction l with
  | nil => intro st; exact ⟨[], by simp⟩
  | cons x l ih =>
    intro st
    rcases ih (processUser f t st x) with ⟨tail, htail⟩
    rcases processUser_step f t st x with ⟨-, htr⟩ | ⟨u, i, -, htr, -⟩
    · exact ⟨tail, by rw [List.foldl_cons, htail, htr]⟩
    · exact ⟨(u, i) :: tail,
        by rw [List.foldl_cons, htail, htr, List.append_assoc]; rfl⟩

theorem foldl_frame (f : Faults) (t : Nat) :
    ∀ (l : List (Option Nat)) (st : TickState) (d : Drop),
      d ∈ st.table →
      (∀ p ∈ (l.foldl (processUser f t) st).transitioned, p.2 ≠ d.id) →
      d ∈ (l.foldl (processUser f t) st).table := by
  intro l
  induction l with
  | nil => intro st d hd _; exact hd
  | cons x l ih =>
    intro st d hd hp
    rcases processUser_step f t st x with ⟨htbl, -⟩ | ⟨u, i, -, htr, htbl⟩
    · refine ih (processUser f t st x) d (htbl ▸ hd) ?_
      simpa using hp
    · rcases foldl_transitioned_ext f t l (processUser f t st x) with
        ⟨tail, htail⟩
    -- the new pair (u, i) is in the final transition log, so i ≠ d.id
      have hmem : (u, i) ∈ (l.foldl (processUser f t)
          (processUser f t st x)).transitioned := by
        rw [htail, htr]
        simp
      have hne : i ≠ d.id := by
        have := hp (u, i) (by simpa using hmem)
        simpa using this
      refine ih (processUser f t st x) d ?_ ?_
      · rw [htbl]
        exact markDropAsSent_mem_ne st.table i t d hd
          (fun h => hne h.symm)
      · simpa using hp

theorem nodup_countP_beq_le_one (l : List (Option Nat))
    (a : Option Nat) : l.Nodup → l.countP (fun y => y == a) ≤ 1 := by
  induction l with
  | nil => intro _; simp
  | cons x l ih =>
    intro hl
    rcases List.nodup_cons.mp hl with ⟨hx, hl2⟩
    rw [List.countP_cons]
    by_cases hxa : x = a
    · subst hxa
      have hz : l.countP (fun y => y == x) = 0 := by
        rw [List.countP_eq_zero]
        intro y hy
        simp only [beq_iff_eq]
        rintro rfl
        exact hx hy
      simp [hz]
    · have ht := ih hl2
      simp [hxa]
      omega

theorem foldl_transitioned_countP (f : Faults) (t : Nat) (u0 : Nat) :
    ∀ (l : List (Option Nat)) (st : TickState),
      ((l.foldl (processUser f t) st).transitioned.countP
          (fun p => p.1 == u0)) ≤
        st.transitioned.countP (fun p => p.1 == u0) +
          l.countP (fun y => y == some u0) := by
  intro l
  induction l with
  | nil => intro st; simp
  | cons x l ih =>
    intro st
    have hstep : ((processUser f t st x).transitioned.countP
        (fun p => p.1 == u0)) ≤
        st.transitioned.countP (fun p => p.1 == u0) +
          (if x = some u0 then 1 else 0) := by
      rcases processUser_step f t st x with ⟨-, htr⟩ | ⟨u, i, hx, htr, -⟩
      · rw [htr]; omega
      · subst hx
        rw [htr, List.countP_append]
        by_cases hu : u = u0
        · subst hu; simp
        · simp [List.countP_cons, hu]
    calc ((l.foldl (processUser f t) (processUser f t st x)).transitioned.countP
            (fun p => p.1 == u0))
        ≤ (processUser f t st x).transitioned.countP (fun p => p.1 == u0) +
            l.countP (fun y => y == some u0) := ih (processUser f t st x)
      _ ≤ st.transitioned.countP (fun p => p.1 == u0) +
            (if x = some u0 then 1 else 0) +
            l.countP (fun y => y == some u0) := by omega
      _ ≤ st.transitioned.countP (fun p => p.1 == u0) +
            (x :: l).countP (fun y => y == some u0) := by
          rw [List.countP_cons]
          by_cases hx0 : x = some u0
          · simp [hx0]
            omega
          · simp [hx0]

theorem processDropsLogic_ok (f : Faults) (tbl : List Drop) (t : Nat)
    (h : f.listFails = false) :
    processDropsLogic f tbl t =
      ((listUserUUIDsWithDueDrops tbl).foldl (processUser f t)
          (initState tbl),
       ((listUserUUIDsWithDueDrops tbl).foldl (processUser f t)
          (initState tbl)).count,
       none) := by
  simp [processDropsLogic, h]

/-- C4.  Every tenant returned by the listing receives exactly one
selection attempt (the fetch-attempt log of a tick equals the listed
tenants, in order), and at most one item is transitioned per tenant per
tick; on the concrete table where tenants 1 and 2 each own exactly one
pending item, a fault-free tick transitions both and returns count 2. -/
theorem C4_fair_one_per_tenant :
    (∀ (f : Faults) (tbl : List Drop) (t u0 : Nat),
       f.listFails = false →
       (processDropsLogic f tbl t).1.fetchAttempts =
         (listUserUUIDsWithDueDrops tbl).filterMap id ∧
       ((processDropsLogic f tbl t).1.transitioned.countP
          (fun p => p.1 == u0)) ≤ 1) ∧
    ((processDropsLogic noFaults [drop1, drop3] 10).2.1 = 2 ∧
     (processDropsLogic noFaults [drop1, drop3] 10).1.table =
       [markSentRow 10 drop1, markSentRow 10 drop3]) := by
  constructor
  · intro f tbl t u0 h
    rw [processDropsLogic_ok f tbl t h]
    constructor
    · rw [foldl_fetchAttempts]
      simp [initState]
    · have h1 := foldl_transitioned_countP f t u0
        (listUserUUIDsWithDueDrops tbl) (initState tbl)
      have hnodup : (listUserUUIDsWithDueDrops tbl).Nodup :=
        dedupFirst_nodup _ []
      have h2 : (listUserUUIDsWithDueDrops tbl).countP
          (fun y => y == some u0) ≤ 1 :=
        nodup_countP_beq_le_one _ (some u0) hnodup
      have h0 : (initState tbl).transitioned = ([] : List (Nat × Nat)) :=
        rfl
      rw [h0, List.countP_nil] at h1
      dsimp only
      omega
  · constructor
    · decide
    · decide

/-- C4 witness: the general part applied to the two-tenant table. -/
theorem C4_fair_one_per_tenant_witness :
    noFaults.listFails = false ∧
    ((processDropsLogic noFaults [drop1, drop3] 10).1.fetchAttempts =
       (listUserUUIDsWithDueDrops [drop1, drop3]).filterMap id ∧
     ((processDropsLogic noFaults [drop1, drop3] 10).1.transitioned.countP
        (fun p => p.1 == 1)) ≤ 1) :=
  ⟨rfl, C4_fair_one_per_tenant.1 noFaults [drop1, drop3] 10 1 rfl⟩

/-- C8.  Frame property of a tick: any row of the initial table whose id
is not among the transitioned drop ids is still present, unchanged in
every field, in the final table.  Concrete scenario: tenant 1 owns drop1
(priority 3) and drop2 (priority 5), both pending; one fault-free tick
marks drop2 sent and leaves drop1 exactly as it was, with count 1 and
only (tenant 1, drop 20) transitioned. -/
theorem C8_untouched_rows_unchanged :
    (∀ (f : Faults) (tbl : List Drop) (t : Nat), f.listFails = false →
       ∀ d ∈ tbl,
       (∀ p ∈ (processDropsLogic f tbl t).1.transitioned, p.2 ≠ d.id) →
       d ∈ (processDropsLogic f tbl t).1.table) ∧
    ((processDropsLogic noFaults [drop1, drop2] 10).1.table =
       [drop1, markSentRow 10 drop2] ∧
     (processDropsLogic noFaults [drop1, drop2] 10).2.1 = 1 ∧
     (processDropsLogic noFaults [drop1, drop2] 10).1.transitioned =
       [(1, 20)]) := by
  constructor
  · intro f tbl t h d hd hp
    rw [processDropsLogic_ok f tbl t h] at hp ⊢
    exact foldl_frame f t (listUserUUIDsWithDueDrops tbl)
      (initState tbl) d hd hp
  · exact ⟨by decide, by decide, by decide⟩

/-- C8 witness: drop1 is untouched by the scenario tick. -/
theorem C8_untouched_rows_unchanged_witness :
    noFaults.listFails = false ∧ drop1 ∈ [drop1, drop2] ∧
    drop1 ∈ (processDropsLogic noFaults [drop1, drop2] 10).1.table :=
  ⟨rfl, by decide,
   C8_untouched_rows_unchanged.1 noFaults [drop1, drop2] 10 rfl drop1
     (by decide) (by decide)⟩

/-- C9.  Null tenant identifiers are never selected: every identifier
produced by ListUserUUIDsWithDueDrops is non-null (the query filters
user_uuid IS NOT NULL), and the loop body is the identity on an invalid
(null) UUID — no fetch, no error flag change, no count change, no table
change. -/
theorem C9_null_tenant_never_selected :
    (∀ (tbl : List Drop), ∀ x ∈ listUserUUIDsWithDueDrops tbl,
       x.isSome = true) ∧
    (∀ (f : Faults) (t : Nat) (st : TickState),
       processUser f t st none = st) :=
  ⟨fun tbl => mem_listUserUUIDs_isSome tbl, fun _ _ _ => rfl⟩

/-- C9 witness: the non-null guarantee at a concrete table and
element. -/
theorem C9_null_tenant_never_selected_witness :
    some 1 ∈ listUserUUIDsWithDueDrops [drop1] ∧
    (some 1 : Option Nat).isSome = true :=
  ⟨by decide,
   C9_null_tenant_never_selected.1 [drop1] (some 1) (by decide)⟩

/-- C10.  The delivery step cannot fail: the simulated send of the
worker reports no error for any drop, and in every tick each drop that
is fetched and sent also reaches the MarkDropAsSent call — the send
and mark attempt logs coincide, with no branch in between that could
divert an item. -/
theorem C10_send_always_succeeds :
    (∀ d : Drop, simulateSend d = none) ∧
    (∀ (f : Faults) (tbl : List Drop) (t : Nat), f.listFails = false →
       (processDropsLogic f tbl t).1.sendAttempts =
         (processDropsLogic f tbl t).1.markAttempts) := by
  refine ⟨fun _ => rfl, fun f tbl t h => ?_⟩
  rw [processDropsLogic_ok f tbl t h]
  exact foldl_send_eq_mark f t (listUserUUIDsWithDueDrops tbl)
    (initState tbl) rfl

/-- C10 witness: send and mark attempts coincide on a concrete run. -/
theorem C10_send_always_succeeds_witness :
    noFaults.listFails = false ∧
    (processDropsLogic noFaults [drop1, drop3] 7).1.sendAttempts =
      (processDropsLogic noFaults [drop1, drop3] 7).1.markAttempts :=
  ⟨rfl, C10_send_always_succeeds.2 noFaults [drop1, drop3] 7 rfl⟩

theorem foldl_markSentRow_send_count :
    ∀ (ts : List Nat) (d : Drop),
      (ts.foldl (fun x u => markSentRow u x) d).send_count =
        d.send_count + ts.length := by
  intro ts
  induction ts with
  | nil => intro d; simp
  | cons t ts ih =>
    intro d
    rw [List.foldl_cons, ih]
    simp [markSentRow]
    omega

theorem foldl_markSentRow_last :
    ∀ (ts : List Nat) (d : Drop) (u : Nat), ts.getLast? = some u →
      (ts.foldl (fun x v => markSentRow v x) d).last_sent_date =
        some u := by
  intro ts
  induction ts with
  | nil => intro d u h; simp at h
  | cons t ts ih =>
    intro d u h
    cases ts with
    | nil =>
      simp at h
      subst h
      simp [markSentRow]
    | cons t2 ts2 =>
      rw [List.getLast?_cons_cons] at h
      rw [List.foldl_cons]
      exact ih (markSentRow t d) u h

/-- C6.  A successful MarkDropAsSent call returns the matched row with
status sent, last_sent_date equal to the supplied timestamp, and
send_count incremented by exactly one; iterating the per-row transition
k times on a row that starts with send_count 0 yields send_count k and
last_sent_date the timestamp of the k-th transition. -/
theorem C6_transition_bookkeeping :
    (∀ (tbl : List Drop) (dropId t : Nat) (d : Drop),
       tbl.find? (fun r => r.id == dropId) = some d →
       ∃ d2, (markDropAsSent tbl dropId t).2 = some d2 ∧
         d2.status = Status.sent ∧ d2.last_sent_date = some t ∧
         d2.send_count = d.send_count + 1) ∧
    (∀ (d : Drop) (ts : List Nat), d.send_count = 0 →
       (ts.foldl (fun x u => markSentRow u x) d).send_count =
         ts.length ∧
       (∀ u, ts.getLast? = some u →
          (ts.foldl (fun x v => markSentRow v x) d).last_sent_date =
            some u)) := by
  constructor
  · intro tbl dropId t d h
    exact ⟨markSentRow t d, by simp [markDropAsSent, h], rfl, rfl, rfl⟩
  · intro d ts h0
    refine ⟨?_, fun u hu => foldl_markSentRow_last ts d u hu⟩
    rw [foldl_markSentRow_send_count, h0]
    omega

/-- C6 witness: one call on drop1 and a two-transition iteration. -/
theorem C6_transition_bookkeeping_witness :
    [drop1].find? (fun r => r.id == 10) = some drop1 ∧
    drop1.send_count = 0 ∧
    (∃ d2, (markDropAsSent [drop1] 10 4).2 = some d2 ∧
       d2.status = Status.sent ∧ d2.last_sent_date = some 4 ∧
       d2.send_count = drop1.send_count + 1) ∧
    ([3, 8].foldl (fun x u => markSentRow u x) drop1).send_count =
      [3, 8].length ∧
    ([3, 8].foldl (fun x v => markSentRow v x) drop1).last_sent_date =
      some 8 :=
  ⟨by decide, rfl,
   C6_transition_bookkeeping.1 [drop1] 10 4 drop1 (by decide),
   (C6_transition_bookkeeping.2 drop1 [3, 8] rfl).1,
   (C6_transition_bookkeeping.2 drop1 [3, 8] rfl).2 8 rfl⟩

theorem dueLt_iff (a b : Drop) :
    dueLt a b = true ↔
      (b.priority < a.priority ∨
        (a.priority = b.priority ∧ a.added_date < b.added_date)) := by
  simp [dueLt, Bool.or_eq_true, Bool.and_eq_true, decide_eq_true_eq,
    beq_iff_eq]

theorem dueLt_irrefl (a : Drop) : dueLt a a = false := by
  simp [dueLt]

theorem dueLt_asymm (a b : Drop) (h : dueLt a b = true) :
    dueLt b a = false := by
  rw [Bool.eq_false_iff]
  intro h2
  rw [dueLt_iff] at h h2
  omega

theorem dueLt_trans (a b c : Drop) (h1 : dueLt a b = true)
    (h2 : dueLt b c = true) : dueLt a c = true := by
  rw [dueLt_iff] at h1 h2 ⊢
  omega

theorem mem_insertDue (d : Drop) (l : List Drop) (x : Drop) :
    x ∈ insertDue d l ↔ x = d ∨ x ∈ l := by
  induction l with
  | nil => simp [insertDue]
  | cons y l ih =>
    simp only [insertDue]
    split
    · simp only [List.mem_cons]
    · simp only [List.mem_cons, ih]
      tauto

theorem insertDue_headMin (d : Drop) (l : List Drop)
    (hl : ∀ h0, l.head? = some h0 → ∀ y ∈ l, dueLt y h0 = false) :
    ∀ h0, (insertDue d l).head? = some h0 →
      ∀ y ∈ insertDue d l, dueLt y h0 = false := by
  cases l with
  | nil =>
    intro h0 hh y hy
    simp only [insertDue, List.head?_cons, Option.some.injEq] at hh
    simp only [insertDue, List.mem_singleton] at hy
    rw [hy, ← hh]
    exact dueLt_irrefl d
  | cons x xs =>
    intro h0 hh y hy
    simp only [insertDue] at hh hy
    by_cases hdx : dueLt d x = true
    · rw [if_pos hdx] at hh hy
      simp only [List.head?_cons, Option.some.injEq] at hh
      rcases List.mem_cons.mp hy with hyd | hy2
      · rw [hyd, ← hh]
        exact dueLt_irrefl d
      · rcases List.mem_cons.mp hy2 with hyx | hy3
        · rw [hyx, ← hh]
          exact dueLt_asymm d x hdx
        · rw [← hh]
          cases hyd : dueLt y d with
          | false => rfl
          | true =>
            exfalso
            have hyx2 := dueLt_trans y d x hyd hdx
            have hfx := hl x rfl y (List.mem_cons_of_mem x hy3)
            rw [hfx] at hyx2
            exact Bool.false_ne_true hyx2
    · rw [if_neg hdx] at hh hy
      simp only [List.head?_cons, Option.some.injEq] at hh
      rcases List.mem_cons.mp hy with hyx | hy2
      · rw [hyx, ← hh]
        exact dueLt_irrefl x
      · rcases (mem_insertDue d xs y).mp hy2 with hyd | hy3
        · rw [hyd, ← hh]
          exact Bool.eq_false_iff.mpr hdx
        · rw [← hh]
          exact hl x rfl y (List.mem_cons_of_mem x hy3)

theorem foldl_insertDue_headMin :
    ∀ (l acc : List Drop),
      (∀ h0, acc.head? = some h0 → ∀ y ∈ acc, dueLt y h0 = false) →
      ∀ h0, (l.foldl (fun a d => insertDue d a) acc).head? = some h0 →
        ∀ y ∈ l.foldl (fun a d => insertDue d a) acc,
          dueLt y h0 = false := by
  intro l
  induction l with
  | nil => intro acc hacc; exact hacc
  | cons x l ih =>
    intro acc hacc
    exact ih (insertDue x acc) (insertDue_headMin x acc hacc)

theorem mem_foldl_insertDue :
    ∀ (l acc : List Drop) (x : Drop),
      x ∈ l.foldl (fun a d => insertDue d a) acc ↔
        x ∈ acc ∨ x ∈ l := by
  intro l
  induction l with
  | nil => intro acc x; simp
  | cons y l ih =>
    intro acc x
    rw [List.foldl_cons, ih, mem_insertDue]
    simp only [List.mem_cons]
    tauto

theorem mem_sortDue (l : List Drop) (x : Drop) :
    x ∈ sortDue l ↔ x ∈ l := by
  rw [sortDue, mem_foldl_insertDue]
  simp

theorem sortDue_headMin (l : List Drop) :
    ∀ h0, (sortDue l).head? = some h0 →
      ∀ y ∈ sortDue l, dueLt y h0 = false := by
  rw [sortDue]
  exact foldl_insertDue_headMin l [] (fun h0 hh => by simp at hh)

theorem sortDue_eq_nil_iff (l : List Drop) : sortDue l = [] ↔ l = [] := by
  constructor
  · intro h
    cases hl : l with
    | nil => rfl
    | cons x xs =>
      exfalso
      have hx : x ∈ sortDue l := (mem_sortDue l x).mpr (by rw [hl]; simp)
      rw [h] at hx
      exact List.not_mem_nil x hx
  · rintro rfl
    rfl

/-- C5.  The claim says the fetch returns the unique maximum under the
total order priority desc, created_at asc, id asc.  On a table holding
two pending rows of tenant 7 tied on priority and added_date, stored
with id 2 physically before id 1, the query returns the id-2 row — yet
under the claimed order the id-1 row strictly precedes it: the SQL
orders only by priority and added_date, with no id tiebreak, so
remaining ties follow row order. -/
theorem C5_counterexample :
    getDueDropsByUserUUID [dTieB, dTieA] 7 1 = [dTieB] ∧
    dTieA ∈ [dTieB, dTieA] ∧ isDueFor 7 dTieA = true ∧
    dTieA ≠ dTieB ∧ specDueLt dTieA dTieB = true ∧
    specDueLt dTieB dTieA = false := by
  decide

/-- C5 (amended).  The fetch with limit 1 returns the empty result
exactly when the tenant has no pending item (and this is not an error),
and otherwise returns a pending item of that tenant that is maximal
under priority desc, added_date asc: no other pending item of the
tenant strictly precedes it under that order.  Ties on both keys are
broken by underlying row order, not by id. -/
theorem C5_top_due_item :
    (∀ (tbl : List Drop) (u : Nat),
       (getDueDropsByUserUUID tbl u 1 = [] ↔
          ∀ d ∈ tbl, isDueFor u d = false)) ∧
    (∀ (tbl : List Drop) (u : Nat) (h : Drop) (rest : List Drop),
       getDueDropsByUserUUID tbl u 1 = h :: rest →
       h ∈ tbl ∧ isDueFor u h = true ∧
       ∀ y ∈ tbl, isDueFor u y = true → dueLt y h = false) := by
  constructor
  · intro tbl u
    constructor
    · intro h
      have hnil : sortDue (tbl.filter (isDueFor u)) = [] := by
        cases hs : sortDue (tbl.filter (isDueFor u)) with
        | nil => rfl
        | cons a l =>
          rw [getDueDropsByUserUUID, hs] at h
          simp at h
      have hf : tbl.filter (isDueFor u) = [] :=
        (sortDue_eq_nil_iff _).mp hnil
      intro d hd
      by_contra hdue
      have : d ∈ tbl.filter (isDueFor u) :=
        List.mem_filter.mpr ⟨hd, eq_true_of_ne_false hdue⟩
      rw [hf] at this
      exact List.not_mem_nil d this
    · intro hall
      have hf : tbl.filter (isDueFor u) = [] := by
        rw [List.filter_eq_nil_iff]
        intro d hd
        rw [hall d hd]
        simp
      rw [getDueDropsByUserUUID, hf]
      rfl
  · intro tbl u h rest hres
    have hhead : (sortDue (tbl.filter (isDueFor u))).head? = some h := by
      rw [getDueDropsByUserUUID] at hres
      cases hs : sortDue (tbl.filter (isDueFor u)) with
      | nil => rw [hs] at hres; simp at hres
      | cons a l =>
        rw [hs] at hres
        simp only [List.take_succ_cons, List.take_zero] at hres
        rw [List.head?_cons]
        rw [List.cons.injEq] at hres
        exact congrArg some hres.1
    have hmem : h ∈ sortDue (tbl.filter (isDueFor u)) := by
      rcases List.head?_eq_some_iff.mp hhead with ⟨l2, hl2⟩
      rw [hl2]
      simp
    have hmemf : h ∈ tbl.filter (isDueFor u) :=
      (mem_sortDue _ h).mp hmem
    refine ⟨(List.mem_filter.mp hmemf).1, (List.mem_filter.mp hmemf).2,
      fun y hy hydue => ?_⟩
    have hyf : y ∈ tbl.filter (isDueFor u) :=
      List.mem_filter.mpr ⟨hy, hydue⟩
    have hys : y ∈ sortDue (tbl.filter (isDueFor u)) :=
      (mem_sortDue _ y).mpr hyf
    exact sortDue_headMin _ h hhead y hys

/-- C5 witness: on the two pending items of tenant 1, with priorities 3
and 5, the fetch returns the priority-5 item and nothing strictly
precedes it. -/
theorem C5_top_due_item_witness :
    getDueDropsByUserUUID [drop1, drop2] 1 1 = [drop2] ∧
    (drop2 ∈ [drop1, drop2] ∧ isDueFor 1 drop2 = true ∧
     ∀ y ∈ [drop1, drop2], isDueFor 1 y = true →
       dueLt y drop2 = false) :=
  ⟨by decide, C5_top_due_item.2 [drop1, drop2] 1 drop2 [] (by decide)⟩

end Dropwise
